import Mathlib

/-!
Verification development for the `metric` header-only C++ library
(src/include/metric.h): compile-time distance units in the style of
std::chrono::duration.

The embedding models:
 * std::ratio scales as reduced integer pairs (`MRatio`, `mkRatio`),
   including std::ratio_divide and the __ratio_gcd used by the
   std::common_type specialization for distances;
 * representation types by a kind tag (`RKind`): integer representations
   are modelled by unbounded Int (claims about overflow carry their own
   hypotheses), floating-point representations are idealized as exact
   rationals; C++ integer division/modulo truncate toward zero, hence
   Int.tdiv / Int.tmod;
 * __distance_cast (the four specializations selected on
   Ratio::num == 1 / Ratio::den == 1), __distance_eq (float epsilon
   comparison on identical specializations, conversion to the common type
   otherwise), the arithmetic operators and the mutating member operators.
-/

namespace MetricSpec

/-! Scales: std::ratio modelled by its normalized num/den values. -/

/-- A std::ratio value: numerator and denominator as stored (normalized)
by std::ratio. -/
structure MRatio where
  num : Int
  den : Int
deriving DecidableEq

/-- Scales accepted by `metric::distance`: std::ratio normalizes to a
positive denominator and reduced form, and distance statically requires
Ratio::num > 0. -/
def MRatio.Valid (r : MRatio) : Prop :=
  0 < r.num ∧ 0 < r.den ∧ Int.gcd r.num r.den = 1

instance (r : MRatio) : Decidable r.Valid := by
  unfold MRatio.Valid; infer_instance

/-- Normalization performed by std::ratio<N, D>: num = sign(N)*sign(D)*|N|/g,
den = |D|/g with g = gcd(N, D). -/
def mkRatio (n d : Int) : MRatio :=
  ⟨n.sign * d.sign * ((n.natAbs / Int.gcd n d : Nat) : Int),
   ((d.natAbs / Int.gcd n d : Nat) : Int)⟩

/-- std::ratio_divide<R1, R2>: ratio<R1::num * R2::den, R1::den * R2::num>,
normalized. -/
def ratioDivide (r1 r2 : MRatio) : MRatio :=
  mkRatio (r1.num * r2.den) (r1.den * r2.num)

/-- The __ratio_gcd used by the std::common_type specialization for
distances: ratio<gcd(num1, num2), lcm(den1, den2)>, normalized. -/
def ratioGcd (r1 r2 : MRatio) : MRatio :=
  mkRatio (Int.gcd r1.num r2.num) (Int.lcm r1.den r2.den)

/-- The rational value of a scale. -/
def ratQ (r : MRatio) : ℚ := (r.num : ℚ) / (r.den : ℚ)

/-! Representation kinds. Integer representations are modelled by Int,
floating-point representations are idealized as exact rationals. -/

/-- Kind of a representation type: integral or floating-point. -/
inductive RKind where
  | rint : RKind
  | rfloat : RKind
deriving DecidableEq

/-- The value domain of a representation kind. -/
@[reducible] def RKind.carrier : RKind → Type
  | .rint => Int
  | .rfloat => ℚ

/-- std::common_type of two representation types (with intmax_t folded in):
integral with integral stays integral, anything with floating-point is
floating-point. -/
@[reducible] def commonKind : RKind → RKind → RKind
  | .rint, .rint => .rint
  | _, _ => .rfloat

/-- static_cast between representation types. Floating-point to integral
truncates toward zero, as in C++. -/
def castC : (k1 k2 : RKind) → k1.carrier → k2.carrier
  | .rint, .rint, v => v
  | .rint, .rfloat, v => (v : ℚ)
  | .rfloat, .rfloat, v => v
  | .rfloat, .rint, v => v.num.tdiv v.den

/-- The rational value of a count. -/
def toQ : (k : RKind) → k.carrier → ℚ
  | .rint, v => (v : ℚ)
  | .rfloat, v => v

/-- static_cast of an integer constant (a ratio component) into a
representation type. -/
def ofIntC : (k : RKind) → Int → k.carrier
  | .rint, n => n
  | .rfloat, n => (n : ℚ)

/-- Addition on a representation type. -/
def addC : (k : RKind) → k.carrier → k.carrier → k.carrier
  | .rint, a, b => a + b
  | .rfloat, a, b => a + b

/-- Subtraction on a representation type. -/
def subC : (k : RKind) → k.carrier → k.carrier → k.carrier
  | .rint, a, b => a - b
  | .rfloat, a, b => a - b

/-- Multiplication on a representation type. -/
def mulC : (k : RKind) → k.carrier → k.carrier → k.carrier
  | .rint, a, b => a * b
  | .rfloat, a, b => a * b

/-- Division on a representation type: C++ integral division truncates
toward zero; floating-point division is exact in the idealization. -/
def divC : (k : RKind) → k.carrier → k.carrier → k.carrier
  | .rint, a, b => a.tdiv b
  | .rfloat, a, b => a / b

/-- The unit value of a representation type. -/
def oneC : (k : RKind) → k.carrier
  | .rint => 1
  | .rfloat => 1

/-- operator== on raw counts of a representation type (exact comparison). -/
def beqC : (k : RKind) → k.carrier → k.carrier → Bool
  | .rint, a, b => decide (a = b)
  | .rfloat, a, b => decide (a = b)

/-! Distance types and the common_type specialization. -/

/-- A distance type: the pair of its representation kind and its scale,
mirroring metric::distance<Repr, Ratio>. The count is type-level data in
C++; values of the type carry a count in `kind.carrier`. -/
structure DistTy where
  kind : RKind
  scale : MRatio
deriving DecidableEq

/-- std::common_type<distance<R1, S1>, distance<R2, S2>>: distance of the
common representation type at the __ratio_gcd of the two scales. -/
@[reducible] def commonTy (T1 T2 : DistTy) : DistTy :=
  ⟨commonKind T1.kind T2.kind, ratioGcd T1.scale T2.scale⟩

/-! distance_cast: the four __distance_cast specializations, selected on
whether the reduced ratio source_scale / target_scale has num == 1 and/or
den == 1. CT is std::common_type<ToRepr, FromRepr, intmax_t>. In the
num != 1, den != 1 specialization the source applies static_cast to the
target representation around the product, before the division (see
metric.h line 320); the cast back into CT for the division and the final
conversion by the constructor are also modelled. -/

/-- Model of metric::distance_cast / __distance_cast for counts whose
values stay representable (no machine-width narrowing). -/
def distance_cast_model (S T : DistTy) (v : S.kind.carrier) : T.kind.carrier :=
  let r := ratioDivide S.scale T.scale
  let ck := commonKind S.kind T.kind
  if r.num = 1 ∧ r.den = 1 then castC S.kind T.kind v
  else if r.num = 1 then
    castC ck T.kind (divC ck (castC S.kind ck v) (ofIntC ck r.den))
  else if r.den = 1 then
    castC ck T.kind (mulC ck (castC S.kind ck v) (ofIntC ck r.num))
  else
    castC ck T.kind
      (divC ck
        (castC T.kind ck (castC ck T.kind (mulC ck (castC S.kind ck v) (ofIntC ck r.num))))
        (ofIntC ck r.den))

/-! Relational operator ==. -/

/-- machine epsilon of a 32-bit float, std::numeric_limits<float>::epsilon()
= 2^-23. -/
def floatEpsilon : ℚ := 1 / 8388608

/-- The __distance_eq specialization for two operands of the identical
distance type: floating-point representations compare within
floatEpsilon, integral representations compare exactly. -/
def deqSame : (k : RKind) → k.carrier → k.carrier → Bool
  | .rint, a, b => decide (a = b)
  | .rfloat, a, b =>
      if a > b then decide (a - b ≤ floatEpsilon) else decide (b - a ≤ floatEpsilon)

/-- Transport a count along an equality of representation kinds. -/
def kcast {k1 k2 : RKind} (h : k1 = k2) (x : k1.carrier) : k2.carrier := h ▸ x

/-- Model of metric::operator== : the primary __distance_eq template
converts both operands to their common type and compares counts exactly;
the specialization for two operands of one identical distance type
dispatches to `deqSame`. -/
def distance_eq_model (T1 T2 : DistTy) (x : T1.kind.carrier) (y : T2.kind.carrier) : Bool :=
  if h : T1 = T2 then
    deqSame T2.kind (kcast (congrArg DistTy.kind h) x) y
  else
    beqC (commonTy T1 T2).kind
      (distance_cast_model T1 (commonTy T1 T2) x)
      (distance_cast_model T2 (commonTy T1 T2) y)

/-! Arithmetic operators. -/

/-- Model of operator+ on two distances: both operands are cast to the
common type, counts are added; the result lives at the common type. -/
def distance_add (T1 T2 : DistTy) (x : T1.kind.carrier) (y : T2.kind.carrier) :
    (commonTy T1 T2).kind.carrier :=
  addC (commonTy T1 T2).kind
    (distance_cast_model T1 (commonTy T1 T2) x)
    (distance_cast_model T2 (commonTy T1 T2) y)

/-- Model of operator- on two distances. -/
def distance_sub (T1 T2 : DistTy) (x : T1.kind.carrier) (y : T2.kind.carrier) :
    (commonTy T1 T2).kind.carrier :=
  subC (commonTy T1 T2).kind
    (distance_cast_model T1 (commonTy T1 T2) x)
    (distance_cast_model T2 (commonTy T1 T2) y)

/-- The result type of distance * scalar: distance<common_type<Repr1,
Repr2>, Ratio1> — the scale of the distance operand is kept. -/
@[reducible] def smulTy (T : DistTy) (sk : RKind) : DistTy :=
  ⟨commonKind T.kind sk, T.scale⟩

/-- Model of operator*(distance, scalar). -/
def distance_mul_scalar (T : DistTy) (sk : RKind)
    (x : T.kind.carrier) (s : sk.carrier) : (smulTy T sk).kind.carrier :=
  mulC (smulTy T sk).kind
    (distance_cast_model T (smulTy T sk) x)
    (castC sk (smulTy T sk).kind s)

/-- Model of operator*(scalar, distance): the source body is the same
expression as for operator*(distance, scalar). -/
def distance_scalar_mul (sk : RKind) (T : DistTy)
    (s : sk.carrier) (x : T.kind.carrier) : (smulTy T sk).kind.carrier :=
  mulC (smulTy T sk).kind
    (distance_cast_model T (smulTy T sk) x)
    (castC sk (smulTy T sk).kind s)

/-- Model of operator/(distance, distance): both operands cast to the
common type, counts divided; the result is a raw number of the common
representation type, not a distance. -/
def distance_div_dist (T1 T2 : DistTy) (x : T1.kind.carrier) (y : T2.kind.carrier) :
    (commonTy T1 T2).kind.carrier :=
  divC (commonTy T1 T2).kind
    (distance_cast_model T1 (commonTy T1 T2) x)
    (distance_cast_model T2 (commonTy T1 T2) y)

/-- Model of operator%(distance, distance) for integral representations
(C++ rejects % on floating-point counts at compile time): both operands
cast to the common type, remainder of the counts; the result is a
distance at the common type. -/
def distance_mod_dist (s1 s2 : MRatio) (x y : Int) : Int :=
  Int.tmod
    (distance_cast_model ⟨.rint, s1⟩ ⟨.rint, ratioGcd s1 s2⟩ x)
    (distance_cast_model ⟨.rint, s2⟩ ⟨.rint, ratioGcd s1 s2⟩ y)

/-! Mutating member operators of metric::distance. Each model returns the
pair (count after the call, count of the returned distance); the scale is
type-level data and is untouched by all of them. -/

/-- Prefix operator++ : increments count_, returns *this (the new value). -/
def dist_preinc (k : RKind) (c : k.carrier) : k.carrier × k.carrier :=
  (addC k c (oneC k), addC k c (oneC k))

/-- Postfix operator++ : returns distance(count_++), i.e. the old count;
count_ becomes old + 1. -/
def dist_postinc (k : RKind) (c : k.carrier) : k.carrier × k.carrier :=
  (addC k c (oneC k), c)

/-- Prefix operator-- . -/
def dist_predec (k : RKind) (c : k.carrier) : k.carrier × k.carrier :=
  (subC k c (oneC k), subC k c (oneC k))

/-- Postfix operator-- . -/
def dist_postdec (k : RKind) (c : k.carrier) : k.carrier × k.carrier :=
  (subC k c (oneC k), c)

/-- operator+=(distance) : count_ += rhs.count_. -/
def dist_add_assign (k : RKind) (c rhs : k.carrier) : k.carrier := addC k c rhs

/-- operator-=(distance) : count_ -= rhs.count_. -/
def dist_sub_assign (k : RKind) (c rhs : k.carrier) : k.carrier := subC k c rhs

/-- operator*=(repr) : count_ *= s. -/
def dist_mul_assign (k : RKind) (c s : k.carrier) : k.carrier := mulC k c s

/-- operator/=(repr) : count_ /= s (integral division truncates toward
zero). -/
def dist_div_assign (k : RKind) (c s : k.carrier) : k.carrier := divC k c s

/-- operator%=(repr) and operator%=(distance), integral representations
only: count_ %= s. -/
def dist_mod_assign (c s : Int) : Int := Int.tmod c s

/-! Machine-width variant of __distance_cast for claim C1: the integral
instantiation with the target representation narrower than the common
type CT. `narrow` models static_cast to the target representation; the
common type CT itself is wide enough for every intermediate here. -/

/-- static_cast to an unsigned w-bit integer: reduction modulo 2^w. -/
def unsignedNarrow (w : Nat) (v : Int) : Int := v % ((2 ^ w : Nat) : Int)

/-- Model of __distance_cast exactly as written in the source: in the
num != 1, den != 1 specialization the static_cast to the target
representation closes after the multiplication and before the division
(metric.h lines 320-321). -/
def distance_cast_int_code (narrow : Int → Int) (s t : MRatio) (v : Int) : Int :=
  let r := ratioDivide s t
  if r.num = 1 ∧ r.den = 1 then narrow v
  else if r.num = 1 then narrow (v.tdiv r.den)
  else if r.den = 1 then narrow (v * r.num)
  else narrow ((narrow (v * r.num)).tdiv r.den)

/-- Modelled from the spec: the algorithm claim C1 describes, with the
multiply-then-divide of the num != 1, den != 1 case carried out entirely
in the widened common type and narrowed to the target representation only
at the end (spec section 4.2, steps 2-5). -/
def distance_cast_int_claimed (narrow : Int → Int) (s t : MRatio) (v : Int) : Int :=
  let r := ratioDivide s t
  if r.num = 1 ∧ r.den = 1 then narrow v
  else if r.num = 1 then narrow (v.tdiv r.den)
  else if r.den = 1 then narrow (v * r.num)
  else narrow ((v * r.num).tdiv r.den)

/-- Exactness of the division steps a distance_cast performs on an
integral count: trivially true in the cases that do not divide. -/
def castExact (s t : MRatio) (v : Int) : Prop :=
  let r := ratioDivide s t
  (r.num = 1 → r.den ≠ 1 → r.den ∣ v) ∧
  (r.num ≠ 1 → r.den ≠ 1 → r.den ∣ v * r.num)

instance (s t : MRatio) (v : Int) : Decidable (castExact s t v) := by
  unfold castExact; infer_instance

/-! Basic facts about the normalization `mkRatio` on positive inputs. -/

lemma mkRatio_num_spec {a b : Int} (ha : 0 < a) (hb : 0 < b) :
    ((Int.gcd a b : Nat) : Int) * (mkRatio a b).num = a := by
  have hsa : a.sign = 1 := Int.sign_eq_one_of_pos ha
  have hsb : b.sign = 1 := Int.sign_eq_one_of_pos hb
  have hd : Int.gcd a b ∣ a.natAbs := Nat.gcd_dvd_left _ _
  simp only [mkRatio, hsa, hsb, one_mul]
  rw [← Nat.cast_mul, Nat.mul_div_cancel' hd, Int.natAbs_of_nonneg ha.le]

lemma mkRatio_den_spec {a b : Int} (_ha : 0 < a) (hb : 0 < b) :
    ((Int.gcd a b : Nat) : Int) * (mkRatio a b).den = b := by
  have hd : Int.gcd a b ∣ b.natAbs := Nat.gcd_dvd_right _ _
  simp only [mkRatio]
  rw [← Nat.cast_mul, Nat.mul_div_cancel' hd, Int.natAbs_of_nonneg hb.le]

lemma gcd_pos_of_pos {a b : Int} (ha : 0 < a) : 0 < Int.gcd a b := by
  rcases Nat.eq_zero_or_pos (Int.gcd a b) with h | h
  · rw [Int.gcd_eq_zero_iff] at h
    exact absurd h.1 ha.ne'
  · exact h

lemma mkRatio_num_pos {a b : Int} (ha : 0 < a) (hb : 0 < b) : 0 < (mkRatio a b).num := by
  have hg : (0 : Int) < (Int.gcd a b : Nat) := by exact_mod_cast gcd_pos_of_pos ha
  nlinarith [mkRatio_num_spec ha hb]

lemma mkRatio_den_pos {a b : Int} (ha : 0 < a) (hb : 0 < b) : 0 < (mkRatio a b).den := by
  have hg : (0 : Int) < (Int.gcd a b : Nat) := by exact_mod_cast gcd_pos_of_pos ha
  nlinarith [mkRatio_den_spec ha hb]

lemma mkRatio_reduced {a b : Int} (ha : 0 < a) (hb : 0 < b) :
    Int.gcd (mkRatio a b).num (mkRatio a b).den = 1 := by
  have hsa : a.sign = 1 := Int.sign_eq_one_of_pos ha
  have hsb : b.sign = 1 := Int.sign_eq_one_of_pos hb
  have hg : 0 < Int.gcd a b := gcd_pos_of_pos ha
  simp only [mkRatio, hsa, hsb, one_mul]
  have hco := Nat.coprime_div_gcd_div_gcd (m := a.natAbs) (n := b.natAbs) hg
  rw [Int.gcd_natCast_natCast]
  exact hco

lemma mkRatio_valid {a b : Int} (ha : 0 < a) (hb : 0 < b) : (mkRatio a b).Valid :=
  ⟨mkRatio_num_pos ha hb, mkRatio_den_pos ha hb, mkRatio_reduced ha hb⟩

lemma ratQ_mkRatio {a b : Int} (ha : 0 < a) (hb : 0 < b) :
    ratQ (mkRatio a b) = (a : ℚ) / (b : ℚ) := by
  have hnum : ((Int.gcd a b : Nat) : ℚ) * ((mkRatio a b).num : ℚ) = (a : ℚ) := by
    exact_mod_cast mkRatio_num_spec ha hb
  have hden : ((Int.gcd a b : Nat) : ℚ) * ((mkRatio a b).den : ℚ) = (b : ℚ) := by
    exact_mod_cast mkRatio_den_spec ha hb
  have hdpos := mkRatio_den_pos ha hb
  have hbq : (b : ℚ) ≠ 0 := by positivity
  have hdq : ((mkRatio a b).den : ℚ) ≠ 0 := by
    have : (0 : ℚ) < ((mkRatio a b).den : ℚ) := by exact_mod_cast hdpos
    exact this.ne'
  rw [ratQ, div_eq_div_iff hdq hbq, ← hnum, ← hden]
  ring

lemma mkRatio_self_of_coprime {a b : Int} (ha : 0 < a) (hb : 0 < b)
    (h : Int.gcd a b = 1) : mkRatio a b = ⟨a, b⟩ := by
  have hnum := mkRatio_num_spec ha hb
  have hden := mkRatio_den_spec ha hb
  rw [h] at hnum hden
  simp only [Nat.cast_one, one_mul] at hnum hden
  cases e : mkRatio a b
  rw [e] at hnum hden
  simp_all

lemma mkRatio_den_one_iff {a b : Int} (ha : 0 < a) (hb : 0 < b) :
    (mkRatio a b).den = 1 ↔ b ∣ a := by
  constructor
  · intro h
    have hden := mkRatio_den_spec ha hb
    rw [h, mul_one] at hden
    have : ((Int.gcd a b : Nat) : Int) ∣ a := hden ▸ Int.gcd_dvd_left
    exact hden ▸ this
  · intro h
    have hgcd : Int.gcd a b = b.natAbs := by
      have : b.natAbs ∣ a.natAbs := Int.natAbs_dvd_natAbs.mpr h
      exact Nat.gcd_eq_right this
    have hden := mkRatio_den_spec ha hb
    rw [hgcd, Int.natAbs_of_nonneg hb.le] at hden
    exact mul_left_cancel₀ hb.ne' (by rw [hden, mul_one])

lemma ratQ_pos {r : MRatio} (h : r.Valid) : 0 < ratQ r :=
  div_pos (by exact_mod_cast h.1) (by exact_mod_cast h.2.1)

lemma valid_ext {r1 r2 : MRatio} (h1 : r1.Valid) (h2 : r2.Valid)
    (h : ratQ r1 = ratQ r2) : r1 = r2 := by
  obtain ⟨hn1, hd1, hc1⟩ := h1
  obtain ⟨hn2, hd2, hc2⟩ := h2
  have hcross : r1.num * r2.den = r2.num * r1.den := by
    have hd1q : ((r1.den : ℚ)) ≠ 0 := by positivity
    have hd2q : ((r2.den : ℚ)) ≠ 0 := by positivity
    rw [ratQ, ratQ, div_eq_div_iff hd1q hd2q] at h
    exact_mod_cast h
  have hco1 : IsCoprime r1.num r1.den := Int.gcd_eq_one_iff_coprime.mp hc1
  have hco2 : IsCoprime r2.num r2.den := Int.gcd_eq_one_iff_coprime.mp hc2
  have h12 : r1.num ∣ r2.num := by
    have : r1.num ∣ r2.num * r1.den := ⟨r2.den, by linarith [hcross]⟩
    exact hco1.dvd_of_dvd_mul_right this
  have h21 : r2.num ∣ r1.num := by
    have : r2.num ∣ r1.num * r2.den := ⟨r1.den, by linarith [hcross]⟩
    exact hco2.dvd_of_dvd_mul_right this
  have hnum : r1.num = r2.num := Int.dvd_antisymm hn1.le hn2.le h12 h21
  have hden : r1.den = r2.den := by
    have := hcross
    rw [hnum] at this
    exact (mul_left_cancel₀ hn2.ne' this).symm
  cases r1; cases r2; simp_all

/-! Facts about ratio_divide. -/

lemma ratioDivide_valid {r1 r2 : MRatio} (h1 : r1.Valid) (h2 : r2.Valid) :
    (ratioDivide r1 r2).Valid :=
  mkRatio_valid (mul_pos h1.1 h2.2.1) (mul_pos h1.2.1 h2.1)

lemma ratQ_ratioDivide {r1 r2 : MRatio} (h1 : r1.Valid) (h2 : r2.Valid) :
    ratQ (ratioDivide r1 r2) = ratQ r1 / ratQ r2 := by
  rw [ratioDivide, ratQ_mkRatio (mul_pos h1.1 h2.2.1) (mul_pos h1.2.1 h2.1), ratQ, ratQ]
  have a1 : ((r1.den : ℚ)) ≠ 0 := by
    have := h1.2.1; positivity
  have a2 : ((r2.num : ℚ)) ≠ 0 := by
    have := h2.1; positivity
  have a3 : ((r2.den : ℚ)) ≠ 0 := by
    have := h2.2.1; positivity
  push_cast
  field_simp

lemma mkRatio_same {a : Int} (ha : 0 < a) : mkRatio a a = ⟨1, 1⟩ := by
  have h := mkRatio_num_spec ha ha
  have h2 := mkRatio_den_spec ha ha
  have hg : Int.gcd a a = a.natAbs := Nat.gcd_self _
  rw [hg, Int.natAbs_of_nonneg ha.le] at h h2
  cases e : mkRatio a a
  rw [e] at h h2
  have hn := mul_left_cancel₀ ha.ne' (h.trans (mul_one a).symm)
  have hd := mul_left_cancel₀ ha.ne' (h2.trans (mul_one a).symm)
  simp_all

lemma ratioDivide_self {r : MRatio} (h : r.Valid) : ratioDivide r r = ⟨1, 1⟩ := by
  rw [ratioDivide, mul_comm r.den r.num]
  exact mkRatio_same (mul_pos h.1 h.2.1)

lemma valid_swap {r : MRatio} (h : r.Valid) : MRatio.Valid ⟨r.den, r.num⟩ := by
  refine ⟨h.2.1, h.1, ?_⟩
  rw [Int.gcd_comm]
  exact h.2.2

lemma ratioDivide_swap {r1 r2 : MRatio} (h1 : r1.Valid) (h2 : r2.Valid) :
    ratioDivide r2 r1 = ⟨(ratioDivide r1 r2).den, (ratioDivide r1 r2).num⟩ := by
  have hv : (ratioDivide r2 r1).Valid := ratioDivide_valid h2 h1
  have hv' : (ratioDivide r1 r2).Valid := ratioDivide_valid h1 h2
  refine valid_ext hv (valid_swap hv') ?_
  rw [ratQ_ratioDivide h2 h1]
  have hnum : ((ratioDivide r1 r2).num : ℚ) ≠ 0 := by
    have := hv'.1; positivity
  have hq1 : ratQ r1 ≠ 0 := (ratQ_pos h1).ne'
  rw [show ratQ ⟨(ratioDivide r1 r2).den, (ratioDivide r1 r2).num⟩
        = (ratQ (ratioDivide r1 r2))⁻¹ by
      rw [ratQ, ratQ, inv_div]]
  rw [ratQ_ratioDivide h1 h2, inv_div]

/-! Facts about the __ratio_gcd of two valid scales. -/

lemma coprime_gcd_lcm {r1 r2 : MRatio} (h1 : r1.Valid) (h2 : r2.Valid) :
    Nat.Coprime (Int.gcd r1.num r2.num) (Int.lcm r1.den r2.den) := by
  have c1 : Nat.Coprime r1.num.natAbs r1.den.natAbs := h1.2.2
  have c2 : Nat.Coprime r2.num.natAbs r2.den.natAbs := h2.2.2
  have hga : Nat.Coprime (Int.gcd r1.num r2.num) r1.den.natAbs :=
    Nat.Coprime.coprime_dvd_left (Nat.gcd_dvd_left _ _) c1
  have hgb : Nat.Coprime (Int.gcd r1.num r2.num) r2.den.natAbs :=
    Nat.Coprime.coprime_dvd_left (Nat.gcd_dvd_right _ _) c2
  exact Nat.Coprime.coprime_dvd_right
    (Nat.lcm_dvd (dvd_mul_right _ _) (dvd_mul_left _ _))
    (hga.mul_right hgb)

lemma lcm_pos_int {a b : Int} (ha : 0 < a) (hb : 0 < b) : 0 < Int.lcm a b := by
  apply Nat.pos_of_ne_zero
  exact Nat.lcm_ne_zero (by simpa using ha.ne') (by simpa using hb.ne')

lemma ratioGcd_eq {r1 r2 : MRatio} (h1 : r1.Valid) (h2 : r2.Valid) :
    ratioGcd r1 r2 = ⟨((Int.gcd r1.num r2.num : Nat) : Int),
                      ((Int.lcm r1.den r2.den : Nat) : Int)⟩ := by
  have hg : (0 : Int) < (Int.gcd r1.num r2.num : Nat) := by
    exact_mod_cast gcd_pos_of_pos h1.1
  have hl : (0 : Int) < (Int.lcm r1.den r2.den : Nat) := by
    exact_mod_cast lcm_pos_int h1.2.1 h2.2.1
  apply mkRatio_self_of_coprime hg hl
  rw [Int.gcd_natCast_natCast]
  exact coprime_gcd_lcm h1 h2

lemma ratioGcd_valid {r1 r2 : MRatio} (h1 : r1.Valid) (h2 : r2.Valid) :
    (ratioGcd r1 r2).Valid := by
  rw [ratioGcd_eq h1 h2]
  refine ⟨?_, ?_, ?_⟩
  · show (0 : Int) < ((Int.gcd r1.num r2.num : Nat) : Int)
    exact_mod_cast gcd_pos_of_pos h1.1
  · show (0 : Int) < ((Int.lcm r1.den r2.den : Nat) : Int)
    exact_mod_cast lcm_pos_int h1.2.1 h2.2.1
  · show Int.gcd ((Int.gcd r1.num r2.num : Nat) : Int) ((Int.lcm r1.den r2.den : Nat) : Int) = 1
    rw [Int.gcd_natCast_natCast]
    exact coprime_gcd_lcm h1 h2

lemma ratioGcd_comm (r1 r2 : MRatio) : ratioGcd r1 r2 = ratioGcd r2 r1 := by
  rw [ratioGcd, ratioGcd, Int.gcd_comm, Int.lcm_comm]

lemma ratioGcd_assoc {r1 r2 r3 : MRatio}
    (h1 : r1.Valid) (h2 : r2.Valid) (h3 : r3.Valid) :
    ratioGcd (ratioGcd r1 r2) r3 = ratioGcd r1 (ratioGcd r2 r3) := by
  rw [ratioGcd_eq (ratioGcd_valid h1 h2) h3, ratioGcd_eq h1 (ratioGcd_valid h2 h3),
      ratioGcd_eq h1 h2, ratioGcd_eq h2 h3]
  simp [Int.gcd, Int.lcm, Nat.gcd_assoc, Nat.lcm_assoc]

lemma ratioGcd_self {r : MRatio} (h : r.Valid) : ratioGcd r r = r := by
  rw [ratioGcd_eq h h]
  have hn : (Int.gcd r.num r.num : Int) = r.num := by
    rw [Int.gcd_self, Int.natAbs_of_nonneg h.1.le]
  have hd : (Int.lcm r.den r.den : Int) = r.den := by
    rw [Int.lcm_self, Int.natAbs_of_nonneg h.2.1.le]
  rw [hn, hd]

lemma den_one_common_left {r1 r2 : MRatio} (h1 : r1.Valid) (h2 : r2.Valid) :
    (ratioDivide r1 (ratioGcd r1 r2)).den = 1 := by
  rw [ratioGcd_eq h1 h2, ratioDivide]
  have hg : (0 : Int) < (Int.gcd r1.num r2.num : Nat) := by
    exact_mod_cast gcd_pos_of_pos h1.1
  have hl : (0 : Int) < (Int.lcm r1.den r2.den : Nat) := by
    exact_mod_cast lcm_pos_int h1.2.1 h2.2.1
  rw [mkRatio_den_one_iff (mul_pos h1.1 hl) (mul_pos h1.2.1 hg)]
  have hdl : r1.den ∣ ((Int.lcm r1.den r2.den : Nat) : Int) := Int.dvd_lcm_left
  have hgn : ((Int.gcd r1.num r2.num : Nat) : Int) ∣ r1.num := Int.gcd_dvd_left
  calc r1.den * ((Int.gcd r1.num r2.num : Nat) : Int)
      ∣ ((Int.lcm r1.den r2.den : Nat) : Int) * r1.num := mul_dvd_mul hdl hgn
    _ = r1.num * ((Int.lcm r1.den r2.den : Nat) : Int) := mul_comm _ _

lemma den_one_common_right {r1 r2 : MRatio} (h1 : r1.Valid) (h2 : r2.Valid) :
    (ratioDivide r2 (ratioGcd r1 r2)).den = 1 := by
  rw [ratioGcd_eq h1 h2, ratioDivide]
  have hg : (0 : Int) < (Int.gcd r1.num r2.num : Nat) := by
    exact_mod_cast gcd_pos_of_pos h1.1
  have hl : (0 : Int) < (Int.lcm r1.den r2.den : Nat) := by
    exact_mod_cast lcm_pos_int h1.2.1 h2.2.1
  rw [mkRatio_den_one_iff (mul_pos h2.1 hl) (mul_pos h2.2.1 hg)]
  have hdl : r2.den ∣ ((Int.lcm r1.den r2.den : Nat) : Int) := Int.dvd_lcm_right
  have hgn : ((Int.gcd r1.num r2.num : Nat) : Int) ∣ r2.num := Int.gcd_dvd_right
  calc r2.den * ((Int.gcd r1.num r2.num : Nat) : Int)
      ∣ ((Int.lcm r1.den r2.den : Nat) : Int) * r2.num := mul_dvd_mul hdl hgn
    _ = r2.num * ((Int.lcm r1.den r2.den : Nat) : Int) := mul_comm _ _

/-! Representation-kind lemmas. -/

lemma castC_self (k : RKind) (v : k.carrier) : castC k k v = v := by
  cases k <;> rfl

lemma commonKind_comm (k1 k2 : RKind) : commonKind k1 k2 = commonKind k2 k1 := by
  cases k1 <;> cases k2 <;> rfl

lemma commonKind_left_absorb (k1 k2 : RKind) :
    commonKind k1 (commonKind k1 k2) = commonKind k1 k2 := by
  cases k1 <;> cases k2 <;> rfl

lemma commonKind_right_absorb (k1 k2 : RKind) :
    commonKind k2 (commonKind k1 k2) = commonKind k1 k2 := by
  cases k1 <;> cases k2 <;> rfl

lemma commonKind_assoc (k1 k2 k3 : RKind) :
    commonKind (commonKind k1 k2) k3 = commonKind k1 (commonKind k2 k3) := by
  cases k1 <;> cases k2 <;> cases k3 <;> rfl

lemma toQ_castC {k1 k2 : RKind} (h : commonKind k1 k2 = k2) (v : k1.carrier) :
    toQ k2 (castC k1 k2 v) = toQ k1 v := by
  cases k1 <;> cases k2 <;> first | rfl | exact absurd h (by decide)

lemma toQ_addC (k : RKind) (a b : k.carrier) :
    toQ k (addC k a b) = toQ k a + toQ k b := by
  cases k
  · exact Int.cast_add a b
  · rfl

lemma toQ_subC (k : RKind) (a b : k.carrier) :
    toQ k (subC k a b) = toQ k a - toQ k b := by
  cases k
  · exact Int.cast_sub a b
  · rfl

lemma toQ_mulC (k : RKind) (a b : k.carrier) :
    toQ k (mulC k a b) = toQ k a * toQ k b := by
  cases k
  · exact Int.cast_mul a b
  · rfl

lemma toQ_ofIntC (k : RKind) (n : Int) : toQ k (ofIntC k n) = (n : ℚ) := by
  cases k <;> rfl

lemma toQ_oneC (k : RKind) : toQ k (oneC k) = 1 := by
  cases k
  · exact Int.cast_one
  · rfl

lemma toQ_inj (k : RKind) {a b : k.carrier} (h : toQ k a = toQ k b) : a = b := by
  cases k
  · exact Int.cast_injective h
  · exact h

@[simp] lemma commonTy_kind (T1 T2 : DistTy) :
    (commonTy T1 T2).kind = commonKind T1.kind T2.kind := rfl

@[simp] lemma commonTy_scale (T1 T2 : DistTy) :
    (commonTy T1 T2).scale = ratioGcd T1.scale T2.scale := rfl

/-! Behaviour of distance_cast when the reduced conversion ratio has
denominator one: the conversion is an exact multiplication by the
numerator (the num == den == 1 specialization multiplies by one). -/

lemma toQ_cast_den_one (S T : DistTy)
    (hk : commonKind S.kind T.kind = T.kind)
    (hden : (ratioDivide S.scale T.scale).den = 1) (v : S.kind.carrier) :
    toQ T.kind (distance_cast_model S T v)
      = toQ S.kind v * ((ratioDivide S.scale T.scale).num : ℚ) := by
  by_cases h1 : (ratioDivide S.scale T.scale).num = 1
  · simp only [distance_cast_model, h1, hden, and_self, if_true]
    rw [toQ_castC hk]
    norm_num
  · simp only [distance_cast_model, h1, hden, and_true, if_false, eq_self_iff_true, if_true]
    rw [hk, castC_self, toQ_mulC, toQ_castC hk, toQ_ofIntC]

lemma num_mul_ratQ_common_left {r1 r2 : MRatio} (h1 : r1.Valid) (h2 : r2.Valid) :
    ((ratioDivide r1 (ratioGcd r1 r2)).num : ℚ) * ratQ (ratioGcd r1 r2) = ratQ r1 := by
  have hcv := ratioGcd_valid h1 h2
  have hden := den_one_common_left h1 h2
  have hval : ratQ (ratioDivide r1 (ratioGcd r1 r2)) = ratQ r1 / ratQ (ratioGcd r1 r2) :=
    ratQ_ratioDivide h1 hcv
  rw [ratQ, hden] at hval
  norm_num at hval
  rw [hval, div_mul_cancel₀ _ (ratQ_pos hcv).ne']

lemma num_mul_ratQ_common_right {r1 r2 : MRatio} (h1 : r1.Valid) (h2 : r2.Valid) :
    ((ratioDivide r2 (ratioGcd r1 r2)).num : ℚ) * ratQ (ratioGcd r1 r2) = ratQ r2 := by
  have hcv := ratioGcd_valid h1 h2
  have hden := den_one_common_right h1 h2
  have hval : ratQ (ratioDivide r2 (ratioGcd r1 r2)) = ratQ r2 / ratQ (ratioGcd r1 r2) :=
    ratQ_ratioDivide h2 hcv
  rw [ratQ, hden] at hval
  norm_num at hval
  rw [hval, div_mul_cancel₀ _ (ratQ_pos hcv).ne']

/-! Conversion of either operand into the common type preserves the
physical value (count times scale): both conversions are exact integer
multiplications. -/

lemma toQ_cast_commonTy_left (T1 T2 : DistTy)
    (h1 : T1.scale.Valid) (h2 : T2.scale.Valid) (v : T1.kind.carrier) :
    toQ (commonTy T1 T2).kind (distance_cast_model T1 (commonTy T1 T2) v)
        * ratQ (ratioGcd T1.scale T2.scale)
      = toQ T1.kind v * ratQ T1.scale := by
  rw [toQ_cast_den_one T1 (commonTy T1 T2) (commonKind_left_absorb _ _)
      (den_one_common_left h1 h2) v]
  rw [mul_assoc, commonTy_scale, num_mul_ratQ_common_left h1 h2]

lemma toQ_cast_commonTy_right (T1 T2 : DistTy)
    (h1 : T1.scale.Valid) (h2 : T2.scale.Valid) (v : T2.kind.carrier) :
    toQ (commonTy T1 T2).kind (distance_cast_model T2 (commonTy T1 T2) v)
        * ratQ (ratioGcd T1.scale T2.scale)
      = toQ T2.kind v * ratQ T2.scale := by
  rw [toQ_cast_den_one T2 (commonTy T1 T2) (commonKind_right_absorb _ _)
      (den_one_common_right h1 h2) v]
  rw [mul_assoc, commonTy_scale, num_mul_ratQ_common_right h1 h2]

lemma toQ_distance_add (T1 T2 : DistTy)
    (h1 : T1.scale.Valid) (h2 : T2.scale.Valid)
    (x : T1.kind.carrier) (y : T2.kind.carrier) :
    toQ (commonTy T1 T2).kind (distance_add T1 T2 x y) * ratQ (ratioGcd T1.scale T2.scale)
      = toQ T1.kind x * ratQ T1.scale + toQ T2.kind y * ratQ T2.scale := by
  rw [distance_add, toQ_addC, add_mul, toQ_cast_commonTy_left T1 T2 h1 h2 x,
      toQ_cast_commonTy_right T1 T2 h1 h2 y]

lemma toQ_distance_sub (T1 T2 : DistTy)
    (h1 : T1.scale.Valid) (h2 : T2.scale.Valid)
    (x : T1.kind.carrier) (y : T2.kind.carrier) :
    toQ (commonTy T1 T2).kind (distance_sub T1 T2 x y) * ratQ (ratioGcd T1.scale T2.scale)
      = toQ T1.kind x * ratQ T1.scale - toQ T2.kind y * ratQ T2.scale := by
  rw [distance_sub, toQ_subC, sub_mul, toQ_cast_commonTy_left T1 T2 h1 h2 x,
      toQ_cast_commonTy_right T1 T2 h1 h2 y]

lemma distance_cast_model_self (T : DistTy) (h : T.scale.Valid) (v : T.kind.carrier) :
    distance_cast_model T T v = v := by
  simp [distance_cast_model, ratioDivide_self h, castC_self]

lemma distance_eq_model_same (T : DistTy) (x y : T.kind.carrier) :
    distance_eq_model T T x y = deqSame T.kind x y := by
  rw [distance_eq_model, dif_pos rfl]
  rfl

lemma distance_eq_model_ne {T1 T2 : DistTy} (h : T1 ≠ T2)
    (x : T1.kind.carrier) (y : T2.kind.carrier) :
    distance_eq_model T1 T2 x y =
      beqC (commonTy T1 T2).kind
        (distance_cast_model T1 (commonTy T1 T2) x)
        (distance_cast_model T2 (commonTy T1 T2) y) := by
  rw [distance_eq_model, dif_neg h]

lemma beqC_eq_true_iff (k : RKind) (a b : k.carrier) : beqC k a b = true ↔ a = b := by
  cases k <;> simp [beqC]

/-- The floating-point instantiation of __distance_cast, written out:
the common type of two floating-point representations is floating-point
and every representation cast is the identity. -/
lemma cast_model_float_eval (sc tc : MRatio) (v : ℚ) :
    distance_cast_model ⟨.rfloat, sc⟩ ⟨.rfloat, tc⟩ v =
      (if (ratioDivide sc tc).num = 1 ∧ (ratioDivide sc tc).den = 1 then v
       else if (ratioDivide sc tc).num = 1 then v / ((ratioDivide sc tc).den : ℚ)
       else if (ratioDivide sc tc).den = 1 then v * ((ratioDivide sc tc).num : ℚ)
       else v * ((ratioDivide sc tc).num : ℚ) / ((ratioDivide sc tc).den : ℚ)) := rfl

/-- The integral instantiation of __distance_cast, written out: the
common type of two integral representations (with intmax_t) is integral
and C++ integral division truncates toward zero. -/
lemma cast_model_int_eval (sc tc : MRatio) (v : Int) :
    distance_cast_model ⟨.rint, sc⟩ ⟨.rint, tc⟩ v =
      (if (ratioDivide sc tc).num = 1 ∧ (ratioDivide sc tc).den = 1 then v
       else if (ratioDivide sc tc).num = 1 then v.tdiv (ratioDivide sc tc).den
       else if (ratioDivide sc tc).den = 1 then v * (ratioDivide sc tc).num
       else (v * (ratioDivide sc tc).num).tdiv (ratioDivide sc tc).den) := rfl

lemma deqSame_float (a b : ℚ) :
    deqSame .rfloat a b = decide (|a - b| ≤ floatEpsilon) := by
  show (if a > b then decide (a - b ≤ floatEpsilon) else decide (b - a ≤ floatEpsilon))
      = decide (|a - b| ≤ floatEpsilon)
  by_cases h : a > b
  · rw [if_pos h]
    exact (decide_eq_decide.mpr (by rw [abs_of_pos (sub_pos.mpr h)])).symm
  · rw [if_neg h]
    exact (decide_eq_decide.mpr
      (by rw [abs_sub_comm, abs_of_nonneg (sub_nonneg.mpr (le_of_not_lt h))])).symm

/-! Claim theorems. -/

/-- C5: for every two distances a and b (of possibly different scales and
representations), a + b and a - b are distance values whose scale is the
common (__ratio_gcd) scale of the two operand scales, whose
representation is the common representation of both inputs, and whose
count is the sum (resp. difference) of the two operands' counts after
each is converted to that common scale: the conversions are exact
integer multiplications, so the result count weighted by the common
scale equals the sum (difference) of the operands' physical values. -/
theorem C5_add_sub_common (T1 T2 : DistTy)
    (h1 : T1.scale.Valid) (h2 : T2.scale.Valid)
    (x : T1.kind.carrier) (y : T2.kind.carrier) :
    (commonTy T1 T2).scale = ratioGcd T1.scale T2.scale ∧
    (commonTy T1 T2).kind = commonKind T1.kind T2.kind ∧
    distance_add T1 T2 x y
      = addC (commonTy T1 T2).kind
          (distance_cast_model T1 (commonTy T1 T2) x)
          (distance_cast_model T2 (commonTy T1 T2) y) ∧
    distance_sub T1 T2 x y
      = subC (commonTy T1 T2).kind
          (distance_cast_model T1 (commonTy T1 T2) x)
          (distance_cast_model T2 (commonTy T1 T2) y) ∧
    toQ (commonTy T1 T2).kind (distance_add T1 T2 x y) * ratQ (ratioGcd T1.scale T2.scale)
      = toQ T1.kind x * ratQ T1.scale + toQ T2.kind y * ratQ T2.scale ∧
    toQ (commonTy T1 T2).kind (distance_sub T1 T2 x y) * ratQ (ratioGcd T1.scale T2.scale)
      = toQ T1.kind x * ratQ T1.scale - toQ T2.kind y * ratQ T2.scale :=
  ⟨rfl, rfl, rfl, rfl, toQ_distance_add T1 T2 h1 h2 x y, toQ_distance_sub T1 T2 h1 h2 x y⟩

/-- C5 witness: 1 cm + 5 m (integral counts) is 501 at the common scale
1/100 (centimeters), instantiating the claim theorem. -/
theorem C5_witness :
    (⟨1, 100⟩ : MRatio).Valid ∧ (⟨1, 1⟩ : MRatio).Valid ∧
    distance_add ⟨.rint, ⟨1, 100⟩⟩ ⟨.rint, ⟨1, 1⟩⟩ (1 : Int) (5 : Int) = 501 ∧
    toQ (commonTy ⟨.rint, ⟨1, 100⟩⟩ ⟨.rint, ⟨1, 1⟩⟩).kind
        (distance_add ⟨.rint, ⟨1, 100⟩⟩ ⟨.rint, ⟨1, 1⟩⟩ (1 : Int) (5 : Int))
        * ratQ (ratioGcd ⟨1, 100⟩ ⟨1, 1⟩)
      = toQ .rint (1 : Int) * ratQ ⟨1, 100⟩ + toQ .rint (5 : Int) * ratQ ⟨1, 1⟩ :=
  ⟨by decide, by decide, by decide,
   (C5_add_sub_common ⟨.rint, ⟨1, 100⟩⟩ ⟨.rint, ⟨1, 1⟩⟩
      (by decide) (by decide) 1 5).2.2.2.2.1⟩

/-- C8: for every distance and scalar, d * s equals s * d (the two
operator* overloads have identical bodies), both keep the distance's
scale while widening the representation to the common one, and the count
is the distance's count times the scalar. -/
theorem C8_scalar_mul (T : DistTy) (sk : RKind) (h : T.scale.Valid)
    (x : T.kind.carrier) (s : sk.carrier) :
    distance_mul_scalar T sk x s = distance_scalar_mul sk T s x ∧
    (smulTy T sk).scale = T.scale ∧
    (smulTy T sk).kind = commonKind T.kind sk ∧
    toQ (smulTy T sk).kind (distance_mul_scalar T sk x s)
      = toQ T.kind x * toQ sk s := by
  refine ⟨rfl, rfl, rfl, ?_⟩
  have hden : (ratioDivide T.scale (smulTy T sk).scale).den = 1 := by
    rw [show (smulTy T sk).scale = T.scale from rfl, ratioDivide_self h]
  have e := toQ_cast_den_one T (smulTy T sk) (commonKind_left_absorb T.kind sk) hden x
  rw [show (smulTy T sk).scale = T.scale from rfl, ratioDivide_self h] at e
  rw [distance_mul_scalar, toQ_mulC, e,
      @toQ_castC sk (smulTy T sk).kind (commonKind_right_absorb T.kind sk)]
  norm_num

/-- C8 witness: 5 cm * 3 = 15 cm with integral count and scalar,
instantiating the claim theorem. -/
theorem C8_witness :
    (⟨1, 100⟩ : MRatio).Valid ∧
    distance_mul_scalar ⟨.rint, ⟨1, 100⟩⟩ .rint (5 : Int) (3 : Int)
      = distance_scalar_mul .rint ⟨.rint, ⟨1, 100⟩⟩ (3 : Int) (5 : Int) ∧
    distance_mul_scalar ⟨.rint, ⟨1, 100⟩⟩ .rint (5 : Int) (3 : Int) = 15 ∧
    toQ (smulTy ⟨.rint, ⟨1, 100⟩⟩ .rint).kind
        (distance_mul_scalar ⟨.rint, ⟨1, 100⟩⟩ .rint (5 : Int) (3 : Int))
      = toQ .rint (5 : Int) * toQ .rint (3 : Int) :=
  ⟨by decide,
   (C8_scalar_mul ⟨.rint, ⟨1, 100⟩⟩ .rint (by decide) 5 3).1,
   by decide,
   (C8_scalar_mul ⟨.rint, ⟨1, 100⟩⟩ .rint (by decide) 5 3).2.2.2⟩

/-- C9: the mutating member operators update the count in place with the
representation type's ordinary numeric semantics (truncating division
and remainder for integral counts) and return the expected value: the
prefix increment and decrement return the updated distance, the postfix
forms return a distance holding the count from before the mutation, and
the compound operators leave the count equal to the corresponding binary
operation applied to the old count; the scale is type-level data and
unchanged by construction. -/
theorem C9_mutating_ops (k : RKind) (c rhs s : k.carrier) (ci si : Int) :
    (toQ k (dist_preinc k c).1 = toQ k c + 1 ∧ (dist_preinc k c).2 = (dist_preinc k c).1) ∧
    (toQ k (dist_postinc k c).1 = toQ k c + 1 ∧ (dist_postinc k c).2 = c) ∧
    (toQ k (dist_predec k c).1 = toQ k c - 1 ∧ (dist_predec k c).2 = (dist_predec k c).1) ∧
    (toQ k (dist_postdec k c).1 = toQ k c - 1 ∧ (dist_postdec k c).2 = c) ∧
    toQ k (dist_add_assign k c rhs) = toQ k c + toQ k rhs ∧
    toQ k (dist_sub_assign k c rhs) = toQ k c - toQ k rhs ∧
    toQ k (dist_mul_assign k c s) = toQ k c * toQ k s ∧
    dist_div_assign k c s = divC k c s ∧
    dist_mod_assign ci si = Int.tmod ci si := by
  refine ⟨⟨?_, rfl⟩, ⟨?_, rfl⟩, ⟨?_, rfl⟩, ⟨?_, rfl⟩, ?_, ?_, ?_, rfl, rfl⟩
  · rw [dist_preinc]
    show toQ k (addC k c (oneC k)) = toQ k c + 1
    rw [toQ_addC, toQ_oneC]
  · rw [dist_postinc]
    show toQ k (addC k c (oneC k)) = toQ k c + 1
    rw [toQ_addC, toQ_oneC]
  · rw [dist_predec]
    show toQ k (subC k c (oneC k)) = toQ k c - 1
    rw [toQ_subC, toQ_oneC]
  · rw [dist_postdec]
    show toQ k (subC k c (oneC k)) = toQ k c - 1
    rw [toQ_subC, toQ_oneC]
  · rw [dist_add_assign, toQ_addC]
  · rw [dist_sub_assign, toQ_subC]
  · rw [dist_mul_assign, toQ_mulC]

lemma commonKind_self (k : RKind) : commonKind k k = k := by
  cases k <;> rfl

lemma commonTy_self (T : DistTy) (h : T.scale.Valid) : commonTy T T = T := by
  show (⟨commonKind T.kind T.kind, ratioGcd T.scale T.scale⟩ : DistTy) = T
  rw [ratioGcd_self h, commonKind_self]

lemma cast_common_self_int (s : MRatio) (h : s.Valid) (v : Int) :
    distance_cast_model ⟨.rint, s⟩ (commonTy ⟨.rint, s⟩ ⟨.rint, s⟩) v = v := by
  show distance_cast_model ⟨.rint, s⟩ ⟨.rint, ratioGcd s s⟩ v = v
  rw [ratioGcd_self h]
  exact distance_cast_model_self (⟨.rint, s⟩ : DistTy) h v

/-- C6: distance addition under the common-scale convention is
commutative and associative: the common types agree on both sides, and
the resulting counts agree (stated through the injective value map toQ
of the common representation). The integral counts are modelled by
unbounded integers, so the no-overflow proviso of the claim is satisfied
throughout the model. -/
theorem C6_add_comm_assoc (T1 T2 T3 : DistTy)
    (h1 : T1.scale.Valid) (h2 : T2.scale.Valid) (h3 : T3.scale.Valid)
    (x : T1.kind.carrier) (y : T2.kind.carrier) (z : T3.kind.carrier) :
    commonTy T1 T2 = commonTy T2 T1 ∧
    toQ (commonTy T1 T2).kind (distance_add T1 T2 x y)
      = toQ (commonTy T2 T1).kind (distance_add T2 T1 y x) ∧
    commonTy (commonTy T1 T2) T3 = commonTy T1 (commonTy T2 T3) ∧
    toQ (commonTy (commonTy T1 T2) T3).kind
        (distance_add (commonTy T1 T2) T3 (distance_add T1 T2 x y) z)
      = toQ (commonTy T1 (commonTy T2 T3)).kind
        (distance_add T1 (commonTy T2 T3) x (distance_add T2 T3 y z)) := by
  have hg12 := ratioGcd_valid h1 h2
  have hg23 := ratioGcd_valid h2 h3
  refine ⟨?_, ?_, ?_, ?_⟩
  · show (⟨commonKind T1.kind T2.kind, ratioGcd T1.scale T2.scale⟩ : DistTy)
      = ⟨commonKind T2.kind T1.kind, ratioGcd T2.scale T1.scale⟩
    rw [commonKind_comm T1.kind T2.kind, ratioGcd_comm T1.scale T2.scale]
  · have e1 := toQ_distance_add T1 T2 h1 h2 x y
    have e2 := toQ_distance_add T2 T1 h2 h1 y x
    rw [ratioGcd_comm T2.scale T1.scale] at e2
    have hq : ratQ (ratioGcd T1.scale T2.scale) ≠ 0 := (ratQ_pos hg12).ne'
    refine mul_right_cancel₀ hq ?_
    rw [e1, e2]
    ring
  · show (⟨commonKind (commonKind T1.kind T2.kind) T3.kind,
          ratioGcd (ratioGcd T1.scale T2.scale) T3.scale⟩ : DistTy)
      = ⟨commonKind T1.kind (commonKind T2.kind T3.kind),
         ratioGcd T1.scale (ratioGcd T2.scale T3.scale)⟩
    rw [commonKind_assoc, ratioGcd_assoc h1 h2 h3]
  · have e1 := toQ_distance_add T1 T2 h1 h2 x y
    have e4 := toQ_distance_add T2 T3 h2 h3 y z
    have f1 := toQ_distance_add (commonTy T1 T2) T3 hg12 h3 (distance_add T1 T2 x y) z
    have f2 := toQ_distance_add T1 (commonTy T2 T3) h1 hg23 x (distance_add T2 T3 y z)
    simp only [commonTy_scale] at f1 f2
    rw [e1] at f1
    rw [e4] at f2
    rw [ratioGcd_assoc h1 h2 h3] at f1
    have hq : ratQ (ratioGcd T1.scale (ratioGcd T2.scale T3.scale)) ≠ 0 :=
      (ratQ_pos (ratioGcd_valid h1 hg23)).ne'
    refine mul_right_cancel₀ hq ?_
    rw [f1, f2]
    ring

/-- C7: for two integral distances sharing a scale with nonzero divisor
count, a / b is the raw truncated quotient of the counts (a dimensionless
number, not a distance by the very type of distance_div_dist), a % b is a
distance holding the truncated remainder, and the Euclidean identity
a == (a / b) * b + (a % b) holds under the library's own operators. -/
theorem C7_div_mod_euclid (s : MRatio) (h : s.Valid) (x y : Int) (_hy : y ≠ 0) :
    distance_div_dist ⟨.rint, s⟩ ⟨.rint, s⟩ x y = x.tdiv y ∧
    distance_mod_dist s s x y = x.tmod y ∧
    distance_eq_model ⟨.rint, s⟩ (commonTy ⟨.rint, s⟩ ⟨.rint, ratioGcd s s⟩) x
      (distance_add ⟨.rint, s⟩ ⟨.rint, ratioGcd s s⟩
        (distance_scalar_mul .rint ⟨.rint, s⟩ (distance_div_dist ⟨.rint, s⟩ ⟨.rint, s⟩ x y) y)
        (distance_mod_dist s s x y)) = true := by
  have hdiv : distance_div_dist ⟨.rint, s⟩ ⟨.rint, s⟩ x y = x.tdiv y := by
    show divC .rint (distance_cast_model ⟨.rint, s⟩ (commonTy ⟨.rint, s⟩ ⟨.rint, s⟩) x)
        (distance_cast_model ⟨.rint, s⟩ (commonTy ⟨.rint, s⟩ ⟨.rint, s⟩) y) = x.tdiv y
    rw [cast_common_self_int s h x, cast_common_self_int s h y]
    rfl
  have hmod : distance_mod_dist s s x y = x.tmod y := by
    show Int.tmod (distance_cast_model ⟨.rint, s⟩ ⟨.rint, ratioGcd s s⟩ x)
        (distance_cast_model ⟨.rint, s⟩ ⟨.rint, ratioGcd s s⟩ y) = x.tmod y
    rw [ratioGcd_self h, distance_cast_model_self (⟨.rint, s⟩ : DistTy) h x,
        distance_cast_model_self (⟨.rint, s⟩ : DistTy) h y]
  have hsmul : distance_scalar_mul .rint ⟨.rint, s⟩ (x.tdiv y) y = y * x.tdiv y := by
    show mulC .rint (distance_cast_model ⟨.rint, s⟩ ⟨.rint, s⟩ y) (x.tdiv y) = y * x.tdiv y
    rw [distance_cast_model_self (⟨.rint, s⟩ : DistTy) h y]
    rfl
  have hadd : ∀ v1 v2 : Int, distance_add ⟨.rint, s⟩ ⟨.rint, s⟩ v1 v2 = v1 + v2 := by
    intro v1 v2
    show addC .rint (distance_cast_model ⟨.rint, s⟩ (commonTy ⟨.rint, s⟩ ⟨.rint, s⟩) v1)
        (distance_cast_model ⟨.rint, s⟩ (commonTy ⟨.rint, s⟩ ⟨.rint, s⟩) v2) = v1 + v2
    rw [cast_common_self_int s h v1, cast_common_self_int s h v2]
    rfl
  refine ⟨hdiv, hmod, ?_⟩
  rw [hdiv]
  rw [ratioGcd_self h]
  rw [hsmul, hmod, hadd, Int.tdiv_add_tmod x y]
  show distance_eq_model ⟨.rint, s⟩ ⟨.rint, ratioGcd s s⟩ x x = true
  rw [ratioGcd_self h, distance_eq_model_same]
  simp [deqSame]

/-- C6 witness: 1 cm, 2 mm and 3 m with integral counts, instantiating
the commutativity and associativity theorem. -/
theorem C6_witness :
    (⟨1, 100⟩ : MRatio).Valid ∧
    (commonTy ⟨.rint, ⟨1, 100⟩⟩ ⟨.rint, ⟨1, 1000⟩⟩
        = commonTy ⟨.rint, ⟨1, 1000⟩⟩ ⟨.rint, ⟨1, 100⟩⟩ ∧
     toQ (commonTy ⟨.rint, ⟨1, 100⟩⟩ ⟨.rint, ⟨1, 1000⟩⟩).kind
         (distance_add ⟨.rint, ⟨1, 100⟩⟩ ⟨.rint, ⟨1, 1000⟩⟩ (1 : Int) (2 : Int))
       = toQ (commonTy ⟨.rint, ⟨1, 1000⟩⟩ ⟨.rint, ⟨1, 100⟩⟩).kind
         (distance_add ⟨.rint, ⟨1, 1000⟩⟩ ⟨.rint, ⟨1, 100⟩⟩ (2 : Int) (1 : Int)) ∧
     commonTy (commonTy ⟨.rint, ⟨1, 100⟩⟩ ⟨.rint, ⟨1, 1000⟩⟩) ⟨.rint, ⟨1, 1⟩⟩
        = commonTy ⟨.rint, ⟨1, 100⟩⟩ (commonTy ⟨.rint, ⟨1, 1000⟩⟩ ⟨.rint, ⟨1, 1⟩⟩) ∧
     toQ (commonTy (commonTy ⟨.rint, ⟨1, 100⟩⟩ ⟨.rint, ⟨1, 1000⟩⟩) ⟨.rint, ⟨1, 1⟩⟩).kind
         (distance_add (commonTy ⟨.rint, ⟨1, 100⟩⟩ ⟨.rint, ⟨1, 1000⟩⟩) ⟨.rint, ⟨1, 1⟩⟩
           (distance_add ⟨.rint, ⟨1, 100⟩⟩ ⟨.rint, ⟨1, 1000⟩⟩ (1 : Int) (2 : Int)) (3 : Int))
       = toQ (commonTy ⟨.rint, ⟨1, 100⟩⟩ (commonTy ⟨.rint, ⟨1, 1000⟩⟩ ⟨.rint, ⟨1, 1⟩⟩)).kind
         (distance_add ⟨.rint, ⟨1, 100⟩⟩ (commonTy ⟨.rint, ⟨1, 1000⟩⟩ ⟨.rint, ⟨1, 1⟩⟩)
           (1 : Int) (distance_add ⟨.rint, ⟨1, 1000⟩⟩ ⟨.rint, ⟨1, 1⟩⟩ (2 : Int) (3 : Int)))) :=
  ⟨by decide, C6_add_comm_assoc _ _ _ (by decide) (by decide) (by decide) 1 2 3⟩

/-- C7 witness: 40 cm and 30 cm, instantiating the division, remainder
and Euclidean identity theorem. -/
theorem C7_witness :
    (⟨1, 100⟩ : MRatio).Valid ∧ (30 : Int) ≠ 0 ∧
    (distance_div_dist ⟨.rint, ⟨1, 100⟩⟩ ⟨.rint, ⟨1, 100⟩⟩ (40 : Int) (30 : Int)
        = Int.tdiv 40 30 ∧
     distance_mod_dist ⟨1, 100⟩ ⟨1, 100⟩ 40 30 = Int.tmod 40 30 ∧
     distance_eq_model ⟨.rint, ⟨1, 100⟩⟩
       (commonTy ⟨.rint, ⟨1, 100⟩⟩ ⟨.rint, ratioGcd ⟨1, 100⟩ ⟨1, 100⟩⟩) 40
       (distance_add ⟨.rint, ⟨1, 100⟩⟩ ⟨.rint, ratioGcd ⟨1, 100⟩ ⟨1, 100⟩⟩
         (distance_scalar_mul .rint ⟨.rint, ⟨1, 100⟩⟩
           (distance_div_dist ⟨.rint, ⟨1, 100⟩⟩ ⟨.rint, ⟨1, 100⟩⟩ 40 30) 30)
         (distance_mod_dist ⟨1, 100⟩ ⟨1, 100⟩ 40 30)) = true) :=
  ⟨by decide, by decide, C7_div_mod_euclid ⟨1, 100⟩ (by decide) 40 30 (by decide)⟩

/-- C4: operator== dispatch: for two operands of one identical distance
type, floating-point representations use an epsilon-tolerant comparison
whose tolerance is the machine epsilon of a 32-bit float, and integral
representations compare counts directly; for operands of differing scale
or representation, both are converted to the computed common type (common
representation at the __ratio_gcd common scale) and the converted counts
are compared. -/
theorem C4_equality_dispatch :
    (∀ (s : MRatio) (a b : ℚ),
       distance_eq_model ⟨.rfloat, s⟩ ⟨.rfloat, s⟩ a b
         = decide (|a - b| ≤ floatEpsilon)) ∧
    (∀ (s : MRatio) (a b : Int),
       distance_eq_model ⟨.rint, s⟩ ⟨.rint, s⟩ a b = decide (a = b)) ∧
    (∀ (T1 T2 : DistTy), T1 ≠ T2 → ∀ (x : T1.kind.carrier) (y : T2.kind.carrier),
       distance_eq_model T1 T2 x y
         = beqC (commonKind T1.kind T2.kind)
             (distance_cast_model T1 ⟨commonKind T1.kind T2.kind, ratioGcd T1.scale T2.scale⟩ x)
             (distance_cast_model T2 ⟨commonKind T1.kind T2.kind, ratioGcd T1.scale T2.scale⟩ y)) := by
  refine ⟨?_, ?_, ?_⟩
  · intro s a b
    rw [distance_eq_model_same]
    exact deqSame_float a b
  · intro s a b
    rw [distance_eq_model_same]
    rfl
  · intro T1 T2 hne x y
    exact distance_eq_model_ne hne x y

/-- C4 witness: 5 cm vs 50 mm with integral counts dispatches to the
common-type comparison, and two equal floating-point counts of one
identical type dispatch to the epsilon comparison. -/
theorem C4_witness :
    ((⟨.rint, ⟨1, 100⟩⟩ : DistTy) ≠ ⟨.rint, ⟨1, 1000⟩⟩) ∧
    distance_eq_model ⟨.rint, ⟨1, 100⟩⟩ ⟨.rint, ⟨1, 1000⟩⟩ (5 : Int) (50 : Int)
      = beqC (commonKind .rint .rint)
          (distance_cast_model ⟨.rint, ⟨1, 100⟩⟩
            ⟨commonKind .rint .rint, ratioGcd ⟨1, 100⟩ ⟨1, 1000⟩⟩ 5)
          (distance_cast_model ⟨.rint, ⟨1, 1000⟩⟩
            ⟨commonKind .rint .rint, ratioGcd ⟨1, 100⟩ ⟨1, 1000⟩⟩ 50) ∧
    distance_eq_model ⟨.rfloat, ⟨1, 100⟩⟩ ⟨.rfloat, ⟨1, 100⟩⟩ (5 : ℚ) (5 : ℚ)
      = decide (|(5 : ℚ) - 5| ≤ floatEpsilon) :=
  ⟨by decide, C4_equality_dispatch.2.2 _ _ (by decide) 5 50,
   C4_equality_dispatch.1 ⟨1, 100⟩ 5 5⟩

/-- C10: when the operand types differ (in representation or scale),
operator== compares the converted counts exactly, with no epsilon
tolerance, even for floating-point representations; the epsilon-tolerant
comparison applies only to two operands of one identical floating-point
distance type. Concretely: 1 cm and 10 + 2^-24 mm (float counts) differ
after conversion by less than the float epsilon yet compare unequal,
while the same two counts at one identical type compare equal under the
epsilon rule. -/
theorem C10_cross_type_exact :
    (∀ (T1 T2 : DistTy), T1 ≠ T2 → ∀ (x : T1.kind.carrier) (y : T2.kind.carrier),
       (distance_eq_model T1 T2 x y = true ↔
         distance_cast_model T1 (commonTy T1 T2) x
           = distance_cast_model T2 (commonTy T1 T2) y)) ∧
    (∀ (s : MRatio) (a b : ℚ),
       distance_eq_model ⟨.rfloat, s⟩ ⟨.rfloat, s⟩ a b = true ↔ |a - b| ≤ floatEpsilon) ∧
    distance_eq_model ⟨.rfloat, ⟨1, 100⟩⟩ ⟨.rfloat, ⟨1, 1000⟩⟩
      (1 : ℚ) (10 + 1 / 16777216 : ℚ) = false ∧
    distance_eq_model ⟨.rfloat, ⟨1, 1000⟩⟩ ⟨.rfloat, ⟨1, 1000⟩⟩
      (10 : ℚ) (10 + 1 / 16777216 : ℚ) = true := by
  refine ⟨?_, ?_, ?_, ?_⟩
  · intro T1 T2 hne x y
    rw [distance_eq_model_ne hne x y, beqC_eq_true_iff]
  · intro s a b
    rw [distance_eq_model_same]
    show deqSame .rfloat a b = true ↔ _
    rw [deqSame_float]
    exact decide_eq_true_iff
  · have hne : (⟨.rfloat, ⟨1, 100⟩⟩ : DistTy) ≠ ⟨.rfloat, ⟨1, 1000⟩⟩ := by decide
    rw [distance_eq_model_ne hne]
    have e1 : distance_cast_model ⟨.rfloat, ⟨1, 100⟩⟩
        (commonTy ⟨.rfloat, ⟨1, 100⟩⟩ ⟨.rfloat, ⟨1, 1000⟩⟩) (1 : ℚ) = 10 := by
      show distance_cast_model ⟨.rfloat, ⟨1, 100⟩⟩
          ⟨.rfloat, ratioGcd ⟨1, 100⟩ ⟨1, 1000⟩⟩ (1 : ℚ) = 10
      rw [show ratioGcd ⟨1, 100⟩ ⟨1, 1000⟩ = ⟨1, 1000⟩ from by decide,
          cast_model_float_eval,
          show ratioDivide ⟨1, 100⟩ ⟨1, 1000⟩ = ⟨10, 1⟩ from by decide]
      norm_num
    have e2 : distance_cast_model ⟨.rfloat, ⟨1, 1000⟩⟩
        (commonTy ⟨.rfloat, ⟨1, 100⟩⟩ ⟨.rfloat, ⟨1, 1000⟩⟩) (10 + 1 / 16777216 : ℚ)
          = 10 + 1 / 16777216 := by
      show distance_cast_model ⟨.rfloat, ⟨1, 1000⟩⟩
          ⟨.rfloat, ratioGcd ⟨1, 100⟩ ⟨1, 1000⟩⟩ (10 + 1 / 16777216 : ℚ) = 10 + 1 / 16777216
      rw [show ratioGcd ⟨1, 100⟩ ⟨1, 1000⟩ = ⟨1, 1000⟩ from by decide,
          cast_model_float_eval,
          show ratioDivide ⟨1, 1000⟩ ⟨1, 1000⟩ = ⟨1, 1⟩ from by decide]
      norm_num
    rw [e1, e2]
    show decide ((10 : ℚ) = 10 + 1 / 16777216) = false
    rw [decide_eq_false_iff_not]
    norm_num
  · rw [distance_eq_model_same]
    show deqSame .rfloat (10 : ℚ) (10 + 1 / 16777216 : ℚ) = true
    rw [deqSame_float]
    have habs : |(10 : ℚ) - (10 + 1 / 16777216)| = 1 / 16777216 := by
      rw [show (10 : ℚ) - (10 + 1 / 16777216) = -(1 / 16777216) by norm_num,
          abs_neg, abs_of_nonneg (by norm_num)]
    rw [habs, decide_eq_true_eq, floatEpsilon]
    norm_num

/-- C10 witness: 1 cm vs 10 mm in float representations, instantiating
the cross-type exact-comparison characterization. -/
theorem C10_witness :
    ((⟨.rfloat, ⟨1, 100⟩⟩ : DistTy) ≠ ⟨.rfloat, ⟨1, 1000⟩⟩) ∧
    (distance_eq_model ⟨.rfloat, ⟨1, 100⟩⟩ ⟨.rfloat, ⟨1, 1000⟩⟩ (1 : ℚ) (10 : ℚ) = true ↔
      distance_cast_model ⟨.rfloat, ⟨1, 100⟩⟩
          (commonTy ⟨.rfloat, ⟨1, 100⟩⟩ ⟨.rfloat, ⟨1, 1000⟩⟩) (1 : ℚ)
        = distance_cast_model ⟨.rfloat, ⟨1, 1000⟩⟩
          (commonTy ⟨.rfloat, ⟨1, 100⟩⟩ ⟨.rfloat, ⟨1, 1000⟩⟩) (10 : ℚ)) :=
  ⟨by decide, C10_cross_type_exact.1 _ _ (by decide) 1 10⟩

/-- C2: converting a distance from scale s to scale t and back yields the
original count exactly: always, for floating-point representations
(idealized here as exact rationals); and for integral representations
whenever every division step performed by the two conversions is exact
(the spec's wording; the backward division steps are in fact
automatically exact). -/
theorem C2_roundtrip (s t : MRatio) (hs : s.Valid) (ht : t.Valid) :
    (∀ v : ℚ, distance_cast_model ⟨.rfloat, t⟩ ⟨.rfloat, s⟩
        (distance_cast_model ⟨.rfloat, s⟩ ⟨.rfloat, t⟩ v) = v) ∧
    (∀ v : Int, castExact s t v →
       castExact t s (distance_cast_model ⟨.rint, s⟩ ⟨.rint, t⟩ v) →
       distance_cast_model ⟨.rint, t⟩ ⟨.rint, s⟩
         (distance_cast_model ⟨.rint, s⟩ ⟨.rint, t⟩ v) = v) := by
  have rv := ratioDivide_valid hs ht
  have rswap := ratioDivide_swap hs ht
  have rsnum : (ratioDivide t s).num = (ratioDivide s t).den := by rw [rswap]
  have rsden : (ratioDivide t s).den = (ratioDivide s t).num := by rw [rswap]
  have hn : 0 < (ratioDivide s t).num := rv.1
  have hd : 0 < (ratioDivide s t).den := rv.2.1
  have hn0 : ((ratioDivide s t).num : ℚ) ≠ 0 := by
    exact_mod_cast hn.ne'
  have hd0 : ((ratioDivide s t).den : ℚ) ≠ 0 := by
    exact_mod_cast hd.ne'
  constructor
  · intro v
    simp only [cast_model_float_eval, rsnum, rsden]
    by_cases h1 : (ratioDivide s t).num = 1 <;> by_cases h2 : (ratioDivide s t).den = 1
    · simp [h1, h2]
    · simp only [h1, h2, and_true, and_false, if_false, if_true, eq_self_iff_true, true_and,
        false_and]
      exact div_mul_cancel₀ v hd0
    · simp only [h1, h2, and_true, and_false, if_false, if_true, eq_self_iff_true, true_and,
        false_and]
      exact mul_div_cancel_right₀ v hn0
    · simp only [h1, h2, and_true, and_false, if_false, if_true, eq_self_iff_true, true_and,
        false_and, and_self]
      rw [div_mul_cancel₀ _ hd0, mul_div_cancel_right₀ v hn0]
  · intro v hex _hex'
    simp only [cast_model_int_eval, rsnum, rsden]
    by_cases h1 : (ratioDivide s t).num = 1 <;> by_cases h2 : (ratioDivide s t).den = 1
    · simp [h1, h2]
    · have hdvd : (ratioDivide s t).den ∣ v := hex.1 h1 h2
      simp only [h1, h2, and_true, and_false, if_false, if_true, eq_self_iff_true, true_and,
        false_and]
      exact Int.tdiv_mul_cancel hdvd
    · simp only [h1, h2, and_true, and_false, if_false, if_true, eq_self_iff_true, true_and,
        false_and]
      exact Int.mul_tdiv_cancel v hn.ne'
    · have hdvd : (ratioDivide s t).den ∣ v * (ratioDivide s t).num := hex.2 h1 h2
      simp only [h1, h2, and_true, and_false, if_false, if_true, eq_self_iff_true, true_and,
        false_and, and_self]
      rw [Int.tdiv_mul_cancel hdvd]
      exact Int.mul_tdiv_cancel v hn.ne'

/-- C2 witness: 300 cm to meters and back (integral counts, the division
by 100 is exact), and an arbitrary rational count through the same pair
of scales. -/
theorem C2_witness :
    castExact ⟨1, 100⟩ ⟨1, 1⟩ 300 ∧
    castExact ⟨1, 1⟩ ⟨1, 100⟩
      (distance_cast_model ⟨.rint, ⟨1, 100⟩⟩ ⟨.rint, ⟨1, 1⟩⟩ 300) ∧
    distance_cast_model ⟨.rint, ⟨1, 1⟩⟩ ⟨.rint, ⟨1, 100⟩⟩
      (distance_cast_model ⟨.rint, ⟨1, 100⟩⟩ ⟨.rint, ⟨1, 1⟩⟩ 300) = 300 ∧
    distance_cast_model ⟨.rfloat, ⟨1, 1⟩⟩ ⟨.rfloat, ⟨1, 100⟩⟩
      (distance_cast_model ⟨.rfloat, ⟨1, 100⟩⟩ ⟨.rfloat, ⟨1, 1⟩⟩ (37 / 4 : ℚ)) = 37 / 4 :=
  ⟨by decide, by decide,
   (C2_roundtrip ⟨1, 100⟩ ⟨1, 1⟩ (by decide) (by decide)).2 300 (by decide) (by decide),
   (C2_roundtrip ⟨1, 100⟩ ⟨1, 1⟩ (by decide) (by decide)).1 (37 / 4)⟩

/-- C1: the num != 1, den != 1 specialization of __distance_cast narrows
the product to the target representation before dividing (the
static_cast closes after the multiplication, metric.h lines 320-321),
whereas the claim — like the other three specializations — carries the
whole computation in the widened common type and narrows only at the
end. Casting a count of 2^31 from scale 2/3 to scale 1/1 with a 32-bit
unsigned target representation, the code produces 0 while the described
algorithm produces 1431655765; with no narrowing (values representable
in the target), the two algorithms agree. -/
theorem C1_narrowing_divergence :
    distance_cast_int_code (unsignedNarrow 32) ⟨2, 3⟩ ⟨1, 1⟩ (2 ^ 31) = 0 ∧
    distance_cast_int_claimed (unsignedNarrow 32) ⟨2, 3⟩ ⟨1, 1⟩ (2 ^ 31) = 1431655765 ∧
    (∀ (s t : MRatio) (v : Int),
       distance_cast_int_code id s t v = distance_cast_int_claimed id s t v) := by
  refine ⟨by decide, by decide, ?_⟩
  intro s t v
  simp [distance_cast_int_code, distance_cast_int_claimed]

/-- C3: the common scale used by every cross-scale operation (the scale
component of the common_type of any two distance types over the given
scales) is the greatest common divisor of the two rational scales: both
scales are positive integer multiples of it, any positive rational of
which both scales are integer multiples is at most it, and each operand
converts into it with a conversion ratio of denominator one, hence
without fractional loss for integral representations. -/
theorem C3_common_scale_gcd (r1 r2 : MRatio) (h1 : r1.Valid) (h2 : r2.Valid) :
    (ratioGcd r1 r2).Valid ∧
    (∀ k1 k2 : RKind, (commonTy ⟨k1, r1⟩ ⟨k2, r2⟩).scale = ratioGcd r1 r2) ∧
    (∃ k1 : Int, 0 < k1 ∧ ratQ r1 = (k1 : ℚ) * ratQ (ratioGcd r1 r2)) ∧
    (∃ k2 : Int, 0 < k2 ∧ ratQ r2 = (k2 : ℚ) * ratQ (ratioGcd r1 r2)) ∧
    (∀ q : ℚ, 0 < q →
       (∃ j1 : Int, ratQ r1 = (j1 : ℚ) * q) →
       (∃ j2 : Int, ratQ r2 = (j2 : ℚ) * q) →
       q ≤ ratQ (ratioGcd r1 r2)) ∧
    (ratioDivide r1 (ratioGcd r1 r2)).den = 1 ∧
    (ratioDivide r2 (ratioGcd r1 r2)).den = 1 := by
  have hcv := ratioGcd_valid h1 h2
  refine ⟨hcv, fun k1 k2 => rfl, ?_, ?_, ?_,
    den_one_common_left h1 h2, den_one_common_right h1 h2⟩
  · exact ⟨(ratioDivide r1 (ratioGcd r1 r2)).num, (ratioDivide_valid h1 hcv).1,
      (num_mul_ratQ_common_left h1 h2).symm⟩
  · exact ⟨(ratioDivide r2 (ratioGcd r1 r2)).num, (ratioDivide_valid h2 hcv).1,
      (num_mul_ratQ_common_right h1 h2).symm⟩
  · intro q hq hj1 hj2
    obtain ⟨j1, e1⟩ := hj1
    obtain ⟨j2, e2⟩ := hj2
    have ha0 : 0 < q.num := Rat.num_pos.mpr hq
    have hb : (0 : Int) < (q.den : Int) := by exact_mod_cast q.pos
    have hd1q : ((r1.den : ℚ)) ≠ 0 := by
      have : (0 : ℚ) < (r1.den : ℚ) := by exact_mod_cast h1.2.1
      exact this.ne'
    have hd2q : ((r2.den : ℚ)) ≠ 0 := by
      have : (0 : ℚ) < (r2.den : ℚ) := by exact_mod_cast h2.2.1
      exact this.ne'
    have hbq : ((q.den : ℚ)) ≠ 0 := by
      have : (0 : ℚ) < (q.den : ℚ) := by exact_mod_cast q.pos
      exact this.ne'
    have key1 : r1.num * (q.den : Int) = j1 * q.num * r1.den := by
      have hq' : (r1.num : ℚ) * (q.den : ℚ) = (j1 : ℚ) * (q.num : ℚ) * (r1.den : ℚ) := by
        have e1' := e1
        rw [ratQ, ← Rat.num_div_den q] at e1'
        field_simp at e1'
        linear_combination e1'
      exact_mod_cast hq'
    have key2 : r2.num * (q.den : Int) = j2 * q.num * r2.den := by
      have hq' : (r2.num : ℚ) * (q.den : ℚ) = (j2 : ℚ) * (q.num : ℚ) * (r2.den : ℚ) := by
        have e2' := e2
        rw [ratQ, ← Rat.num_div_den q] at e2'
        field_simp at e2'
        linear_combination e2'
      exact_mod_cast hq'
    have hco1 : IsCoprime r1.den r1.num :=
      (Int.gcd_eq_one_iff_coprime.mp h1.2.2).symm
    have hco2 : IsCoprime r2.den r2.num :=
      (Int.gcd_eq_one_iff_coprime.mp h2.2.2).symm
    have hd1b : r1.den ∣ (q.den : Int) := by
      have hdvd : r1.den ∣ r1.num * (q.den : Int) :=
        ⟨j1 * q.num, by linear_combination key1⟩
      exact hco1.dvd_of_dvd_mul_left hdvd
    have hd2b : r2.den ∣ (q.den : Int) := by
      have hdvd : r2.den ∣ r2.num * (q.den : Int) :=
        ⟨j2 * q.num, by linear_combination key2⟩
      exact hco2.dvd_of_dvd_mul_left hdvd
    have hcoab : IsCoprime q.num (q.den : Int) := by
      rw [Int.isCoprime_iff_gcd_eq_one]
      have : Int.gcd q.num (q.den : Int) = Nat.gcd q.num.natAbs q.den := by
        simp [Int.gcd]
      rw [this]
      exact q.reduced
    have hcoa_d1 : IsCoprime q.num r1.den := hcoab.of_isCoprime_of_dvd_right hd1b
    have hcoa_d2 : IsCoprime q.num r2.den := hcoab.of_isCoprime_of_dvd_right hd2b
    have h_d2_j1d1 : r2.den ∣ j1 * r1.den := by
      obtain ⟨t, htb⟩ := hd2b
      have hdvd : r2.den ∣ j1 * r1.den * q.num :=
        ⟨r1.num * t, by linear_combination (-1 : Int) * key1 + r1.num * htb⟩
      exact (hcoa_d2.symm).dvd_of_dvd_mul_right hdvd
    have h_d1_j2d2 : r1.den ∣ j2 * r2.den := by
      obtain ⟨t, htb⟩ := hd1b
      have hdvd : r1.den ∣ j2 * r2.den * q.num :=
        ⟨r2.num * t, by linear_combination (-1 : Int) * key2 + r2.num * htb⟩
      exact (hcoa_d1.symm).dvd_of_dvd_mul_right hdvd
    rw [ratioGcd_eq h1 h2]
    show q ≤ ratQ ⟨((Int.gcd r1.num r2.num : Nat) : Int), ((Int.lcm r1.den r2.den : Nat) : Int)⟩
    set gI : Int := ((Int.gcd r1.num r2.num : Nat) : Int) with hgI
    set L : Int := ((Int.lcm r1.den r2.den : Nat) : Int) with hLI
    have hL_j1d1 : L ∣ j1 * r1.den := Int.lcm_dvd (dvd_mul_left r1.den j1) h_d2_j1d1
    have hL_j2d2 : L ∣ j2 * r2.den := Int.lcm_dvd h_d1_j2d2 (dvd_mul_left r2.den j2)
    have hdvd1 : q.num * L ∣ r1.num * (q.den : Int) := by
      rw [key1]
      have h' := mul_dvd_mul_left q.num hL_j1d1
      rwa [show q.num * (j1 * r1.den) = j1 * q.num * r1.den from by ring] at h'
    have hdvd2 : q.num * L ∣ r2.num * (q.den : Int) := by
      rw [key2]
      have h' := mul_dvd_mul_left q.num hL_j2d2
      rwa [show q.num * (j2 * r2.den) = j2 * q.num * r2.den from by ring] at h'
    have hgcd := Int.dvd_gcd hdvd1 hdvd2
    have hgb : ((Int.gcd (r1.num * (q.den : Int)) (r2.num * (q.den : Int)) : Nat) : Int)
        = gI * (q.den : Int) := by
      rw [Int.gcd_mul_right]
      push_cast
      rw [abs_of_nonneg hb.le]
    rw [hgb] at hgcd
    obtain ⟨m, hm⟩ := hgcd
    have hLpos : (0 : Int) < L := by
      rw [hLI]
      exact_mod_cast lcm_pos_int h1.2.1 h2.2.1
    have hgpos : (0 : Int) < gI := by
      rw [hgI]
      exact_mod_cast gcd_pos_of_pos h1.1
    have haL : 0 < q.num * L := mul_pos ha0 hLpos
    have hm0 : 0 < m := by
      by_contra hm'
      push_neg at hm'
      have h1' : q.num * L * m ≤ 0 := mul_nonpos_of_nonneg_of_nonpos haL.le hm'
      rw [← hm] at h1'
      exact absurd h1' (not_le.mpr (mul_pos hgpos hb))
    have hm1 : (1 : Int) ≤ m := hm0
    have hineq : q.num * L ≤ gI * (q.den : Int) := by
      calc q.num * L = q.num * L * 1 := (mul_one _).symm
        _ ≤ q.num * L * m := mul_le_mul_of_nonneg_left hm1 haL.le
        _ = gI * (q.den : Int) := hm.symm
    have hq_le : (q.num : ℚ) / (q.den : ℚ) ≤ (gI : ℚ) / (L : ℚ) := by
      rw [div_le_div_iff₀ (by exact_mod_cast q.pos) (by exact_mod_cast hLpos)]
      exact_mod_cast hineq
    calc q = (q.num : ℚ) / (q.den : ℚ) := (Rat.num_div_den q).symm
      _ ≤ (gI : ℚ) / (L : ℚ) := hq_le
      _ = ratQ ⟨gI, L⟩ := rfl

/-- C3 witness: centimeters 1/100 and millimeters 1/1000 have common
scale 1/1000, and the common rational divisor 1/2000 (with multipliers
20 and 2) is at most it, instantiating the greatest-common-divisor
theorem. -/
theorem C3_witness :
    (⟨1, 100⟩ : MRatio).Valid ∧ (⟨1, 1000⟩ : MRatio).Valid ∧
    (0 : ℚ) < 1 / 2000 ∧
    (1 / 2000 : ℚ) ≤ ratQ (ratioGcd ⟨1, 100⟩ ⟨1, 1000⟩) :=
  ⟨by decide, by decide, by norm_num,
   (C3_common_scale_gcd ⟨1, 100⟩ ⟨1, 1000⟩ (by decide) (by decide)).2.2.2.2.1
     (1 / 2000) (by norm_num)
     ⟨20, by norm_num [ratQ]⟩ ⟨2, by norm_num [ratQ]⟩⟩

end MetricSpec
